import Mathlib

/-!
Verification of the temperature-step segmentation and sigmoid-fitting
pipeline of the Activity-Test-Analyzer repository.

The data-processing half (`BenzeneDataProcessor` in
`src/modules/data_processor.py`) is embedded over `ℚ` (exact model of the
float arithmetic); the fitting half (`src/modules/fitting.py`) over `ℝ`,
since it uses `exp`/`log`.  Python exceptions are modelled by `Option`
(a raised exception is `none`); the external nonlinear solver
(`scipy.optimize.curve_fit`) is an oracle argument: `some (b, c)` is a
convergent solve, `none` a solver exception / non-convergence.
-/

namespace ActivityAnalyzer

/-- One protocol step: `TemperatureStep` of `settings_manager.py`
(temperature in degrees C, hold time here already in seconds as produced by
`set_protocol`, reactor id). -/
structure Step where
  temperature : ℚ
  hold_time : ℚ
  reactor_id : ℕ
deriving DecidableEq

/-- The fields of `BenzeneDataProcessor` relevant to the pipeline
(`data_processor.py`, `__init__` / `set_protocol`); durations in seconds. -/
structure Processor where
  conversion_slope : ℚ
  conversion_intercept : ℚ
  auto_intercept : Bool
  steps : List Step
  ramp_time : ℚ
  analysis_time : ℚ
deriving DecidableEq

/-- The per-step record stored in the `temp_data` dictionary by
`detect_temperature_steps` (`data_processor.py` lines 131-140). -/
structure StepData where
  temperature : ℚ
  reactor_id : ℕ
  time_start : ℚ
  time_end : ℚ
  times : List ℚ
  intensities : List ℚ
  avg_intensity : ℚ
  data_points : ℕ
deriving DecidableEq

/-- Model of `ramp_for_this_step` (`data_processor.py` lines 142-154): zero
when the next step has the same nominal temperature, zero after the last
step, otherwise the ramp time of the protocol.  The list argument is the
list of steps after the current one. -/
def rampFor (ramp : ℚ) (s : Step) : List Step → ℚ
  | [] => 0
  | s2 :: _ => if s2.temperature = s.temperature then 0 else ramp

/-- The builtin `min` of Python on two values (the first argument on ties);
agrees with `min` on `ℚ` (`pyMin_eq_min`), and is written as the explicit
comparison so that concrete runs reduce in the kernel. -/
def pyMin (a b : ℚ) : ℚ := if a ≤ b then a else b

/-- Body of one iteration of the loop of `detect_temperature_steps`
(`data_processor.py` lines 111-140): the analysis window of a step whose
hold starts at `origin + cum`, and the samples of the recording falling in
it (inclusive at both ends).  `none` when no sample matches (the step is
then silently dropped). -/
def stepEntry (anal : ℚ) (times intensities : List ℚ) (origin : ℚ)
    (s : Step) (cum : ℚ) : Option StepData :=
  let hold_start := origin + cum
  let analysis_window := pyMin anal s.hold_time
  let step_start := hold_start + (s.hold_time - analysis_window)
  let step_end := hold_start + s.hold_time
  let pairs := (times.zip intensities).filter
    (fun q => decide (step_start ≤ q.1 ∧ q.1 ≤ step_end))
  if 0 < pairs.length then
    some { temperature := s.temperature
           reactor_id := s.reactor_id
           time_start := step_start
           time_end := step_end
           times := pairs.map Prod.fst
           intensities := pairs.map Prod.snd
           avg_intensity := (pairs.map Prod.snd).sum / (pairs.length : ℚ)
           data_points := pairs.length }
  else none

/-- The loop of `detect_temperature_steps` (`data_processor.py` lines
111-156): walks the remaining steps carrying the running index `i` and the
accumulated `cumulative_time` `cum`; emits one keyed entry per step with at
least one matching sample, in index order (the Python dict keyed by `i`). -/
def detectAux (anal ramp : ℚ) (times intensities : List ℚ) (origin : ℚ) :
    List Step → ℕ → ℚ → List (ℕ × StepData)
  | [], _, _ => []
  | s :: rest, i, cum =>
    let tail := detectAux anal ramp times intensities origin rest (i + 1)
      (cum + s.hold_time + rampFor ramp s rest)
    match stepEntry anal times intensities origin s cum with
    | some d => (i, d) :: tail
    | none => tail

/-- Model of `BenzeneDataProcessor.detect_temperature_steps`
(`data_processor.py` lines 94-158).  The read `start_time = times[0]`
raises `IndexError` on an empty recording: modelled as `none`. -/
def detect_temperature_steps (p : Processor) (times intensities : List ℚ) :
    Option (List (ℕ × StepData)) :=
  match times with
  | [] => none
  | t0 :: _ =>
    some (detectAux p.analysis_time p.ramp_time times intensities t0 p.steps 0 0)

/-- Cumulative time offset from the recording origin to the start of the
hold of step `j`: the value of `cumulative_time` at iteration `j` of the
loop of `detect_temperature_steps`. -/
def cumOffset (ramp : ℚ) : List Step → ℕ → ℚ
  | _, 0 => 0
  | [], _ + 1 => 0
  | s :: rest, j + 1 => s.hold_time + rampFor ramp s rest + cumOffset ramp rest j

/-- The builtin `max` of Python on a list of rationals (junk value `0` on
the empty list, on which Python raises; every use below is guarded by
non-emptiness exactly as in the source).  Written with an explicit
comparison, keeping the earliest value on ties as Python does. -/
def pyMax : List ℚ → ℚ
  | [] => 0
  | x :: xs => xs.foldl (fun m v => if m < v then v else m) x

/-- Model of `intensity_to_conversion` (`data_processor.py` lines 160-170):
`Conversion [%] = slope * Intensity + intercept`. -/
def intensity_to_conversion (slope intercept intensity : ℚ) : ℚ :=
  slope * intensity + intercept

/-- The intercept actually used for a batch of representative intensities:
recomputed as `-slope * max(intensities)` when auto-intercept is on and the
batch is non-empty (`data_processor.py` lines 206-213 and 278-285),
otherwise the configured intercept. -/
def effectiveIntercept (slope intercept0 : ℚ) (auto : Bool) (l : List ℚ) : ℚ :=
  if auto && !l.isEmpty then -slope * pyMax l else intercept0

/-- Conversions of the representative intensities of one reactor group
with the (possibly recomputed) intercept (`data_processor.py` lines
215-219 and 287-291). -/
def groupConversions (slope intercept0 : ℚ) (auto : Bool) (l : List ℚ) : List ℚ :=
  l.map (fun x => intensity_to_conversion slope (effectiveIntercept slope intercept0 auto l) x)

/-- Model of `BenzeneDataProcessor.process_file` (`data_processor.py`
lines 172-229) after the file read: returns the updated processor (line
213 assigns `self.conversion_intercept` when auto-intercept applies), the
temperature and conversion arrays, and `temp_data`; `none` when
`detect_temperature_steps` raises. -/
def process_file (p : Processor) (times intensities : List ℚ) :
    Option (Processor × List ℚ × List ℚ × List (ℕ × StepData)) :=
  match detect_temperature_steps p times intensities with
  | none => none
  | some temp_data =>
    let temperatures := temp_data.map (fun e => e.2.temperature)
    let avg_intensities := temp_data.map (fun e => e.2.avg_intensity)
    let intercept := effectiveIntercept p.conversion_slope p.conversion_intercept
      p.auto_intercept avg_intensities
    let p2 := { p with conversion_intercept := intercept }
    let conversions := groupConversions p.conversion_slope p.conversion_intercept
      p.auto_intercept avg_intensities
    some (p2, temperatures, conversions, temp_data)

/-- The per-reactor accumulator built by the first pass of
`process_file_semi_auto` (`data_processor.py` lines 255-272): protocol-order
lists of temperatures and representative intensities of one reactor. -/
def reactorGroup (temp_data : List (ℕ × StepData)) (r : ℕ) : List StepData :=
  (temp_data.filter (fun e => decide (e.2.reactor_id = r))).map Prod.snd

/-- Model of `BenzeneDataProcessor.process_file_semi_auto`
(`data_processor.py` lines 231-310) after the file read, restricted to one
reactor id `r`: the
temperature and conversion arrays computed for that reactor group with its
own per-group intercept (a local variable: the processor is not mutated).
`none` when `detect_temperature_steps` raises. -/
def process_file_semi_auto (p : Processor) (times intensities : List ℚ) (r : ℕ) :
    Option (Processor × List ℚ × List ℚ) :=
  match detect_temperature_steps p times intensities with
  | none => none
  | some temp_data =>
    let grp := reactorGroup temp_data r
    let temperatures := grp.map (fun d => d.temperature)
    let avg_intensities := grp.map (fun d => d.avg_intensity)
    let conversions := groupConversions p.conversion_slope p.conversion_intercept
      p.auto_intercept avg_intensities
    some (p, temperatures, conversions)

/-- Model of `sigmoid_constrained` (`fitting.py` lines 26-42): the
2-parameter sigmoid with fixed asymptotes 0 at minus infinity and 100 at
plus infinity. -/
noncomputable def sigmoid_constrained (b c T : ℝ) : ℝ :=
  100 / (1 + Real.exp (-b * (T - c)))

/-- Model of `calculate_tx_constrained` (`fitting.py` lines 68-88): domain
guards on the target conversion, then the closed-form inverse of the
constrained sigmoid. -/
noncomputable def calculate_tx_constrained (b c target : ℝ) : Option ℝ :=
  if target ≤ 0 then none
  else if 100 ≤ target then none
  else some (c - 1 / b * Real.log (100 / target - 1))

/-- Worker for the model of `np.argmin`: index of the first minimal value,
given the inputs still to scan, the index of the next input, the best index
so far and the best value so far. -/
noncomputable def argminAux : List ℝ → ℕ → ℕ → ℝ → ℕ
  | [], _, best, _ => best
  | x :: xs, i, best, bv =>
    if x < bv then argminAux xs (i + 1) i x else argminAux xs (i + 1) best bv

/-- Model of `np.argmin`: index of the first minimal value of the list;
`none` on the empty list, on which numpy raises. -/
noncomputable def pyArgmin : List ℝ → Option ℕ
  | [] => none
  | x :: xs => some (argminAux xs 1 0 x)

/-- The observable state of a `SigmoidFitter` instance (`fitting.py` lines
91-99): the most recent fit parameters `popt = (b, c)`, its R-squared, and
the stored input arrays (`__init__` sets all of them to `None`).  The IEEE
floats of the source are modelled by `ℝ`; since `nan` and the infinities
are not real numbers, `r_squared` is an `Option ℝ` whose `none` stands for
a stored non-real float. -/
structure SigmoidFitter where
  popt : Option (ℝ × ℝ)
  r_squared : Option ℝ
  temperatures : Option (List ℝ)
  conversions : Option (List ℝ)

/-- Model of `SigmoidFitter.fit` (`fitting.py` lines 101-146).  The outer
`Option` is `none` when the initial-guess computation (outside the
`try` block) raises: `np.argmin` on an empty array, or indexing the
temperature array out of range.  The `solver` oracle stands for
`scipy.optimize.curve_fit`: `none` is an exception caught by the handler
(the method then returns `False` and assigns nothing), `some (b, c)` a
convergent solve.  On convergence the R-squared is `1 - ss_res / ss_tot`;
when `ss_tot = 0` the float division yields a non-real value (`nan` or an
infinity, with only a runtime warning), modelled as `r_squared := none`,
and the method still returns `True`. -/
noncomputable def SigmoidFitter.fit (f : SigmoidFitter) (temps convs : List ℝ)
    (solver : Option (ℝ × ℝ)) : Option (SigmoidFitter × Bool) :=
  let f1 : SigmoidFitter :=
    { f with temperatures := some temps, conversions := some convs }
  match pyArgmin (convs.map (fun y => |y - 50|)) with
  | none => none
  | some idx =>
    match temps[idx]? with
    | none => none
    | some _ =>
      match solver with
      | none => some (f1, false)
      | some (b, c) =>
        let y_pred := temps.map (fun T => sigmoid_constrained b c T)
        let ss_res := ((convs.zip y_pred).map (fun q => (q.1 - q.2) ^ 2)).sum
        let m := convs.sum / (convs.length : ℝ)
        let ss_tot := (convs.map (fun y => (y - m) ^ 2)).sum
        let r2 : Option ℝ := if ss_tot = 0 then none else some (1 - ss_res / ss_tot)
        some ({ f1 with popt := some (b, c), r_squared := r2 }, true)

theorem pyMin_eq_min (a b : ℚ) : pyMin a b = min a b := by
  rw [min_def]; rfl

theorem cumOffset_zero (ramp : ℚ) (steps : List Step) : cumOffset ramp steps 0 = 0 := by
  cases steps <;> rfl

theorem cumOffset_cons_succ (ramp : ℚ) (s : Step) (rest : List Step) (j : ℕ) :
    cumOffset ramp (s :: rest) (j + 1) =
      s.hold_time + rampFor ramp s rest + cumOffset ramp rest j := rfl

theorem detectAux_cons_some {anal ramp : ℚ} {times ints : List ℚ} {origin : ℚ}
    {s : Step} {rest : List Step} {i : ℕ} {cum : ℚ} {d0 : StepData}
    (hE : stepEntry anal times ints origin s cum = some d0) :
    detectAux anal ramp times ints origin (s :: rest) i cum =
      (i, d0) :: detectAux anal ramp times ints origin rest (i + 1)
        (cum + s.hold_time + rampFor ramp s rest) := by
  conv_lhs => rw [detectAux]
  rw [hE]

theorem detectAux_cons_none {anal ramp : ℚ} {times ints : List ℚ} {origin : ℚ}
    {s : Step} {rest : List Step} {i : ℕ} {cum : ℚ}
    (hE : stepEntry anal times ints origin s cum = none) :
    detectAux anal ramp times ints origin (s :: rest) i cum =
      detectAux anal ramp times ints origin rest (i + 1)
        (cum + s.hold_time + rampFor ramp s rest) := by
  conv_lhs => rw [detectAux]
  rw [hE]

/-- Characterization of the loop of `detect_temperature_steps`: an entry
keyed `k` with data `d` is produced exactly when `k` lies `j` positions
after the running index, step `j` of the remaining protocol exists, and
that step matches at least one sample, with its hold starting at the
accumulated time plus `cumOffset j`. -/
theorem detectAux_mem_iff (anal ramp : ℚ) (times ints : List ℚ) (origin : ℚ) :
    ∀ (steps : List Step) (i : ℕ) (cum : ℚ) (k : ℕ) (d : StepData),
      ((k, d) ∈ detectAux anal ramp times ints origin steps i cum) ↔
      ∃ j : ℕ, ∃ s : Step, k = i + j ∧ steps[j]? = some s ∧
        stepEntry anal times ints origin s (cum + cumOffset ramp steps j) = some d := by
  intro steps
  induction steps with
  | nil =>
    intro i cum k d
    simp [detectAux]
  | cons s0 rest ih =>
    intro i cum k d
    have harith : ∀ j : ℕ,
        cum + cumOffset ramp (s0 :: rest) (j + 1) =
          cum + s0.hold_time + rampFor ramp s0 rest + cumOffset ramp rest j := by
      intro j
      rw [cumOffset_cons_succ]
      ring
    cases hE : stepEntry anal times ints origin s0 cum with
    | some d0 =>
      rw [detectAux_cons_some hE]
      simp only [List.mem_cons]
      constructor
      · rintro (h0 | h1)
        · injection h0 with hk hd
          refine ⟨0, s0, by omega, by simp, ?_⟩
          rw [hd, cumOffset_zero, add_zero]
          exact hE
        · obtain ⟨j, s, hk, hs, hent⟩ := (ih (i + 1) _ k d).mp h1
          exact ⟨j + 1, s, by omega, by simpa using hs, by rw [harith]; exact hent⟩
      · rintro ⟨j, s, hk, hs, hent⟩
        cases j with
        | zero =>
          left
          simp only [List.getElem?_cons_zero, Option.some.injEq] at hs
          subst hs
          rw [cumOffset_zero, add_zero, hE] at hent
          injection hent with hd
          rw [hk, hd]
          simp
        | succ j =>
          right
          refine (ih (i + 1) _ k d).mpr ⟨j, s, by omega, by simpa using hs, ?_⟩
          rw [← harith]
          exact hent
    | none =>
      rw [detectAux_cons_none hE]
      constructor
      · intro h1
        obtain ⟨j, s, hk, hs, hent⟩ := (ih (i + 1) _ k d).mp h1
        exact ⟨j + 1, s, by omega, by simpa using hs, by rw [harith]; exact hent⟩
      · rintro ⟨j, s, hk, hs, hent⟩
        cases j with
        | zero =>
          exfalso
          simp only [List.getElem?_cons_zero, Option.some.injEq] at hs
          subst hs
          rw [cumOffset_zero, add_zero, hE] at hent
          exact Option.noConfusion hent
        | succ j =>
          refine (ih (i + 1) _ k d).mpr ⟨j, s, by omega, by simpa using hs, ?_⟩
          rw [← harith]
          exact hent

/-- Membership characterization at the top-level call of
`detect_temperature_steps`. -/
theorem detect_mem_char (p : Processor) (t0 : ℚ) (ts ints : List ℚ)
    (res : List (ℕ × StepData))
    (h : detect_temperature_steps p (t0 :: ts) ints = some res)
    (k : ℕ) (d : StepData) :
    ((k, d) ∈ res) ↔
      ∃ s : Step, p.steps[k]? = some s ∧
        stepEntry p.analysis_time (t0 :: ts) ints t0 s
          (cumOffset p.ramp_time p.steps k) = some d := by
  have hres : res = detectAux p.analysis_time p.ramp_time (t0 :: ts) ints t0 p.steps 0 0 := by
    unfold detect_temperature_steps at h
    injection h with h2
    exact h2.symm
  subst hres
  rw [detectAux_mem_iff]
  constructor
  · rintro ⟨j, s, hk, hs, hent⟩
    subst hk
    refine ⟨s, by simpa using hs, ?_⟩
    simpa using hent
  · rintro ⟨s, hs, hent⟩
    exact ⟨k, s, by omega, hs, by simpa using hent⟩

theorem detectAux_length_le (anal ramp : ℚ) (times ints : List ℚ) (origin : ℚ) :
    ∀ (steps : List Step) (i : ℕ) (cum : ℚ),
      (detectAux anal ramp times ints origin steps i cum).length ≤ steps.length := by
  intro steps
  induction steps with
  | nil =>
    intro i cum
    simp [detectAux]
  | cons s0 rest ih =>
    intro i cum
    cases hE : stepEntry anal times ints origin s0 cum with
    | some d0 =>
      rw [detectAux_cons_some hE]
      simpa using ih (i + 1) _
    | none =>
      rw [detectAux_cons_none hE]
      exact le_trans (ih (i + 1) _) (Nat.le_succ _)

theorem detectAux_length_lt (anal ramp : ℚ) (times ints : List ℚ) (origin : ℚ) :
    ∀ (steps : List Step) (i : ℕ) (cum : ℚ),
      (∃ j : ℕ, ∃ s : Step, steps[j]? = some s ∧
        stepEntry anal times ints origin s (cum + cumOffset ramp steps j) = none) →
      (detectAux anal ramp times ints origin steps i cum).length < steps.length := by
  intro steps
  induction steps with
  | nil =>
    rintro i cum ⟨j, s, hs, _⟩
    simp at hs
  | cons s0 rest ih =>
    rintro i cum ⟨j, s, hs, hent⟩
    cases j with
    | zero =>
      simp only [List.getElem?_cons_zero, Option.some.injEq] at hs
      subst hs
      rw [cumOffset_zero, add_zero] at hent
      rw [detectAux_cons_none hent]
      exact Nat.lt_succ_of_le (detectAux_length_le anal ramp times ints origin rest (i + 1) _)
    | succ j =>
      have hlt : (detectAux anal ramp times ints origin rest (i + 1)
          (cum + s0.hold_time + rampFor ramp s0 rest)).length < rest.length := by
        refine ih (i + 1) _ ⟨j, s, by simpa using hs, ?_⟩
        rw [show cum + s0.hold_time + rampFor ramp s0 rest + cumOffset ramp rest j =
          cum + cumOffset ramp (s0 :: rest) (j + 1) by rw [cumOffset_cons_succ]; ring]
        exact hent
      cases hE : stepEntry anal times ints origin s0 cum with
      | some d0 =>
        rw [detectAux_cons_some hE]
        simpa using Nat.succ_lt_succ hlt
      | none =>
        rw [detectAux_cons_none hE]
        exact Nat.lt_succ_of_lt hlt

/-- C10: window segmentation has an implicit non-emptiness precondition —
on the empty recording `detect_temperature_steps` fails at `times[0]`
(modelled as `none`) instead of returning an empty step map, hence both
processing pipelines fail too; on any non-empty recording it returns a
result. -/
theorem empty_recording_precondition :
    (∀ p ints, detect_temperature_steps p [] ints = none) ∧
    (∀ p ints, process_file p [] ints = none) ∧
    (∀ p ints r, process_file_semi_auto p [] ints r = none) ∧
    (∀ p t0 ts ints, (detect_temperature_steps p (t0 :: ts) ints).isSome = true) :=
  ⟨fun _ _ => rfl, fun _ _ => rfl, fun _ _ _ => rfl, fun _ _ _ _ => rfl⟩

/-- C4: `calculate_tx_constrained` returns `none` exactly when the target
is at most 0 or at least 100, and for a target strictly between 0 and 100
it returns exactly `c - (1/b) * ln (100/target - 1)`. -/
theorem tx_domain_guard (b c target : ℝ) :
    (calculate_tx_constrained b c target = none ↔ target ≤ 0 ∨ 100 ≤ target) ∧
    (0 < target → target < 100 →
      calculate_tx_constrained b c target =
        some (c - 1 / b * Real.log (100 / target - 1))) := by
  unfold calculate_tx_constrained
  constructor
  · split_ifs with h1 h2 <;> simp_all
  · intro h1 h2
    rw [if_neg (not_le.mpr h1), if_neg (not_le.mpr h2)]

/-- Witness for C4: the four out-of-domain targets of the spec are refused
and an in-domain target gets the closed form. -/
theorem tx_domain_guard_witness :
    calculate_tx_constrained 1 300 0 = none ∧
    calculate_tx_constrained 1 300 100 = none ∧
    calculate_tx_constrained 1 300 (-5) = none ∧
    calculate_tx_constrained 1 300 105 = none ∧
    ((0:ℝ) < 50 ∧ (50:ℝ) < 100 ∧
      calculate_tx_constrained 1 300 50 =
        some (300 - 1 / 1 * Real.log (100 / 50 - 1))) :=
  ⟨(tx_domain_guard 1 300 0).1.mpr (Or.inl (by norm_num)),
   (tx_domain_guard 1 300 100).1.mpr (Or.inr (by norm_num)),
   (tx_domain_guard 1 300 (-5)).1.mpr (Or.inl (by norm_num)),
   (tx_domain_guard 1 300 105).1.mpr (Or.inr (by norm_num)),
   by norm_num, by norm_num,
   (tx_domain_guard 1 300 50).2 (by norm_num) (by norm_num)⟩

/-- C3: with auto-intercept active and a non-empty batch of representative
intensities for a reactor group, the intercept used for the conversions of
the group (in both processing pipelines, which compute them through
`groupConversions`) is `-slope * max(intensities)`, and every position
holding the maximal intensity gets conversion exactly 0. -/
theorem auto_intercept_normalizes (slope intercept0 : ℚ) (l : List ℚ) (hl : l ≠ []) :
    effectiveIntercept slope intercept0 true l = -slope * pyMax l ∧
    ∀ i : ℕ, l[i]? = some (pyMax l) →
      (groupConversions slope intercept0 true l)[i]? = some 0 := by
  have hInt : effectiveIntercept slope intercept0 true l = -slope * pyMax l := by
    unfold effectiveIntercept
    rw [if_pos]
    simp [List.isEmpty_iff, hl]
  refine ⟨hInt, fun i hi => ?_⟩
  unfold groupConversions
  rw [List.getElem?_map, hi, Option.map_some']
  have hz : slope * pyMax l + -slope * pyMax l = 0 := by ring
  simp only [intensity_to_conversion, hInt, hz]

/-- Witness for C3 on intensities `[0.1, 0.05, 0.08]` with slope `-1000`:
the recomputed intercept is `-slope * max = 100` and the maximal sample
(index 0) converts to exactly 0. -/
theorem auto_intercept_normalizes_witness :
    ([(1:ℚ)/10, 5/100, 8/100] ≠ []) ∧
    effectiveIntercept (-1000) 0 true [1/10, 5/100, 8/100] =
      -(-1000) * pyMax [1/10, 5/100, 8/100] ∧
    (groupConversions (-1000) 0 true [1/10, 5/100, 8/100])[0]? = some 0 := by
  have h := auto_intercept_normalizes (-1000) 0 [1/10, 5/100, 8/100] (by simp)
  exact ⟨by simp, h.1, h.2 0 (by norm_num [pyMax])⟩

/-- C5: round-trip law — for positive growth rate, inverting the forward
evaluation of the constrained sigmoid recovers the temperature exactly
whenever the evaluation lies strictly between the asymptotes (exact real
arithmetic). -/
theorem tx_roundtrip (b c T : ℝ) (hb : 0 < b)
    (h0 : 0 < sigmoid_constrained b c T) (h1 : sigmoid_constrained b c T < 100) :
    calculate_tx_constrained b c (sigmoid_constrained b c T) = some T := by
  have hE : 0 < Real.exp (-b * (T - c)) := Real.exp_pos _
  have hden : (0:ℝ) < 1 + Real.exp (-b * (T - c)) := by linarith
  unfold calculate_tx_constrained
  rw [if_neg (not_le.mpr h0), if_neg (not_le.mpr h1)]
  have hy : 100 / sigmoid_constrained b c T - 1 = Real.exp (-b * (T - c)) := by
    unfold sigmoid_constrained
    rw [div_div_eq_mul_div]
    field_simp
  rw [hy, Real.log_exp]
  congr 1
  field_simp
  ring

/-- Witness for C5 at `b = 1`, `c = 0`, `T = 0`: the evaluation is 50,
strictly inside the asymptotes, and inverting it returns exactly 0. -/
theorem tx_roundtrip_witness :
    (0:ℝ) < 1 ∧ 0 < sigmoid_constrained 1 0 0 ∧ sigmoid_constrained 1 0 0 < 100 ∧
    calculate_tx_constrained 1 0 (sigmoid_constrained 1 0 0) = some 0 := by
  have hv : sigmoid_constrained 1 0 0 = 50 := by
    unfold sigmoid_constrained
    norm_num [Real.exp_zero]
  have h0 : (0:ℝ) < sigmoid_constrained 1 0 0 := by rw [hv]; norm_num
  have h1 : sigmoid_constrained 1 0 0 < 100 := by rw [hv]; norm_num
  exact ⟨one_pos, h0, h1, tx_roundtrip 1 0 0 one_pos h0 h1⟩

/-- C9 (the claim is what the spec demands; the code refutes it): on a
convergent solve over constant conversions, `ss_tot = 0` and the division
`ss_res / ss_tot` is unguarded — the stored R-squared is the non-real
float quotient (`none` in this model, i.e. `nan` or an infinity in the
source, raising only a runtime warning) while `fit` still returns `True`:
the case is neither treated as a failure nor reported as `R² = 1`. -/
theorem fit_constant_conversions_unguarded :
    SigmoidFitter.fit ⟨none, none, none, none⟩ [100, 200, 300] [50, 50, 50]
        (some (1, 200)) =
      some (⟨some (1, 200), none, some [100, 200, 300], some [50, 50, 50]⟩, true) := by
  have hA : pyArgmin (List.map (fun y => |y - 50|) ([50, 50, 50] : List ℝ)) = some 0 := by
    norm_num [pyArgmin, argminAux]
  simp only [SigmoidFitter.fit, hA]
  norm_num

/-- C6: when the nonlinear solve fails, `fit` fails as a whole — it
returns `False` and assigns none of the fit fields, so the parameters and
the R-squared of the fitter are exactly what they were before the call
(those of any earlier successful fit), never a mixture. -/
theorem fit_failure_atomic (f : SigmoidFitter) (temps convs : List ℝ)
    (f2 : SigmoidFitter) (ok : Bool)
    (h : SigmoidFitter.fit f temps convs none = some (f2, ok)) :
    ok = false ∧ f2.popt = f.popt ∧ f2.r_squared = f.r_squared := by
  cases hA : pyArgmin (convs.map (fun y => |y - 50|)) with
  | none => simp [SigmoidFitter.fit, hA] at h
  | some idx =>
    cases hT : temps[idx]? with
    | none => simp [SigmoidFitter.fit, hA, hT] at h
    | some t =>
      simp only [SigmoidFitter.fit, hA, hT, Option.some.injEq, Prod.mk.injEq] at h
      obtain ⟨h1, h2⟩ := h
      subst h1
      exact ⟨h2.symm, rfl, rfl⟩

/-- Witness for C6: a fitter holding an earlier successful fit (parameters
`(2, 3)`, R-squared 1) put through a failing solve keeps exactly those
values and reports `False`. -/
theorem fit_failure_atomic_witness :
    SigmoidFitter.fit ⟨some (2, 3), some 1, none, none⟩ [100] [10] none =
      some (⟨some (2, 3), some 1, some [100], some [10]⟩, false) ∧
    (false = false ∧
      (⟨some (2, 3), some 1, some [100], some [10]⟩ : SigmoidFitter).popt =
        (⟨some (2, 3), some 1, none, none⟩ : SigmoidFitter).popt ∧
      (⟨some (2, 3), some 1, some [100], some [10]⟩ : SigmoidFitter).r_squared =
        (⟨some (2, 3), some 1, none, none⟩ : SigmoidFitter).r_squared) := by
  have h : SigmoidFitter.fit ⟨some (2, 3), some 1, none, none⟩ [100] [10] none =
      some (⟨some (2, 3), some 1, some [100], some [10]⟩, false) := rfl
  exact ⟨h, fit_failure_atomic _ _ _ _ _ h⟩

/-- C1: every entry produced by the Window Segmenter selects exactly the
raw samples falling in the inclusive window from
`t0 + (H - min(analysis_time, H))` to `t0 + H`, where `t0` is the hold
start (recording origin plus accumulated offset) and `H` the hold time of
the step. -/
theorem window_selection (p : Processor) (t0 : ℚ) (ts ints : List ℚ)
    (res : List (ℕ × StepData)) (k : ℕ) (d : StepData)
    (h : detect_temperature_steps p (t0 :: ts) ints = some res)
    (hk : (k, d) ∈ res) :
    ∃ s : Step, p.steps[k]? = some s ∧
      d.time_start = t0 + cumOffset p.ramp_time p.steps k +
        (s.hold_time - min p.analysis_time s.hold_time) ∧
      d.time_end = t0 + cumOffset p.ramp_time p.steps k + s.hold_time ∧
      d.times = (((t0 :: ts).zip ints).filter
        (fun q => decide (d.time_start ≤ q.1 ∧ q.1 ≤ d.time_end))).map Prod.fst ∧
      d.intensities = (((t0 :: ts).zip ints).filter
        (fun q => decide (d.time_start ≤ q.1 ∧ q.1 ≤ d.time_end))).map Prod.snd := by
  obtain ⟨s, hs, hent⟩ := (detect_mem_char p t0 ts ints res h k d).mp hk
  refine ⟨s, hs, ?_⟩
  simp only [stepEntry] at hent
  split at hent
  · injection hent with hd
    subst hd
    exact ⟨by simp [pyMin_eq_min], rfl, rfl, rfl⟩
  · simp at hent

/-- Witness for C1: a single step with hold 20 min and analysis 10 min,
recording origin `t0 = 0`: the produced window is exactly
`[t0 + 10 min, t0 + 20 min]` and selects the samples at 600 s and 1200 s
(both ends inclusive), not the one at 0 s. -/
theorem window_selection_witness :
    (detect_temperature_steps ⟨-1000, 0, false, [⟨500, 1200, 1⟩], 600, 600⟩
        [0, 600, 1200] [1, 2, 3] =
      some [(0, ⟨500, 1, 600, 1200, [600, 1200], [2, 3], 5/2, 2⟩)]) ∧
    (⟨500, 1, 600, 1200, [600, 1200], [2, 3], 5/2, 2⟩ : StepData).time_start = 0 + 10 * 60 ∧
    (⟨500, 1, 600, 1200, [600, 1200], [2, 3], 5/2, 2⟩ : StepData).time_end = 0 + 20 * 60 := by
  have h : detect_temperature_steps ⟨-1000, 0, false, [⟨500, 1200, 1⟩], 600, 600⟩
      [0, 600, 1200] [1, 2, 3] =
      some [(0, ⟨500, 1, 600, 1200, [600, 1200], [2, 3], 5/2, 2⟩)] := by
    norm_num [detect_temperature_steps, detectAux, stepEntry, pyMin, rampFor, List.filter]
  obtain ⟨s, hs, h1, h2, _, _⟩ :=
    window_selection ⟨-1000, 0, false, [⟨500, 1200, 1⟩], 600, 600⟩ 0 [600, 1200] [1, 2, 3]
      [(0, ⟨500, 1, 600, 1200, [600, 1200], [2, 3], 5/2, 2⟩)] 0
      ⟨500, 1, 600, 1200, [600, 1200], [2, 3], 5/2, 2⟩ h (by simp)
  simp only [List.getElem?_cons_zero, Option.some.injEq] at hs
  refine ⟨h, ?_, ?_⟩
  · rw [h1, ← hs]
    norm_num [cumOffset, min_def]
  · rw [h2, ← hs]
    norm_num [cumOffset]

/-- C2: the cumulative time offset advances from step `j` to step `j + 1`
by the hold time of step `j` plus a ramp that is 0 exactly when the next
step has the identical nominal temperature and the full ramp time
otherwise; the last step contributes no trailing ramp; and the windows
emitted by `detect_temperature_steps` end at origin plus offset plus hold
time. -/
theorem cumulative_time_rule :
    (∀ (ramp : ℚ) (steps : List Step) (j : ℕ) (s s2 : Step),
      steps[j]? = some s → steps[j + 1]? = some s2 →
      cumOffset ramp steps (j + 1) = cumOffset ramp steps j + s.hold_time +
        (if s2.temperature = s.temperature then 0 else ramp)) ∧
    (∀ (ramp : ℚ) (s : Step), rampFor ramp s [] = 0) ∧
    (∀ (p : Processor) (t0 : ℚ) (ts ints : List ℚ) (res : List (ℕ × StepData)) (k : ℕ)
        (d : StepData), detect_temperature_steps p (t0 :: ts) ints = some res →
      (k, d) ∈ res → ∃ s : Step, p.steps[k]? = some s ∧
        d.time_end = t0 + cumOffset p.ramp_time p.steps k + s.hold_time) := by
  refine ⟨?_, ?_, ?_⟩
  · intro ramp steps
    induction steps with
    | nil =>
      intro j s s2 h1 _
      simp at h1
    | cons s0 rest ih =>
      intro j s s2 h1 h2
      cases j with
      | zero =>
        simp only [List.getElem?_cons_zero, Option.some.injEq] at h1
        subst h1
        cases rest with
        | nil => simp at h2
        | cons s1 rest2 =>
          simp only [List.getElem?_cons_succ, List.getElem?_cons_zero,
            Option.some.injEq] at h2
          subst h2
          rw [cumOffset_cons_succ, cumOffset_zero, cumOffset_zero]
          simp only [rampFor]
          ring
      | succ j =>
        have h1a : rest[j]? = some s := by simpa using h1
        have h2a : rest[j + 1]? = some s2 := by simpa using h2
        have hrec := ih j s s2 h1a h2a
        rw [cumOffset_cons_succ, cumOffset_cons_succ, hrec]
        ring
  · intro ramp s
    rfl
  · intro p t0 ts ints res k d h hk
    obtain ⟨s, hs, hent⟩ := (detect_mem_char p t0 ts ints res h k d).mp hk
    refine ⟨s, hs, ?_⟩
    simp only [stepEntry] at hent
    split at hent
    · injection hent with hd
      subst hd
      rfl
    · simp at hent

/-- Witness for C2 on temperatures `[500, 450, 450, 400]` (each held 20
min) with a 10 min = 600 s ramp: the offsets are 1800 s, 3000 s, 4800 s —
a full ramp between steps 0 and 1 and between steps 2 and 3, and no ramp
between the repeated 450 steps. -/
theorem cumulative_time_rule_witness :
    (([⟨500, 1200, 1⟩, ⟨450, 1200, 1⟩, ⟨450, 1200, 2⟩, ⟨400, 1200, 1⟩] :
        List Step)[1]? = some ⟨450, 1200, 1⟩) ∧
    (([⟨500, 1200, 1⟩, ⟨450, 1200, 1⟩, ⟨450, 1200, 2⟩, ⟨400, 1200, 1⟩] :
        List Step)[2]? = some ⟨450, 1200, 2⟩) ∧
    cumOffset 600 [⟨500, 1200, 1⟩, ⟨450, 1200, 1⟩, ⟨450, 1200, 2⟩, ⟨400, 1200, 1⟩] 2 =
      cumOffset 600 [⟨500, 1200, 1⟩, ⟨450, 1200, 1⟩, ⟨450, 1200, 2⟩, ⟨400, 1200, 1⟩] 1 +
        1200 + (if (450 : ℚ) = 450 then 0 else 600) ∧
    cumOffset 600 [⟨500, 1200, 1⟩, ⟨450, 1200, 1⟩, ⟨450, 1200, 2⟩, ⟨400, 1200, 1⟩] 1 =
      1800 ∧
    cumOffset 600 [⟨500, 1200, 1⟩, ⟨450, 1200, 1⟩, ⟨450, 1200, 2⟩, ⟨400, 1200, 1⟩] 2 =
      3000 ∧
    cumOffset 600 [⟨500, 1200, 1⟩, ⟨450, 1200, 1⟩, ⟨450, 1200, 2⟩, ⟨400, 1200, 1⟩] 3 =
      4800 := by
  refine ⟨by simp, by simp, ?_, ?_, ?_, ?_⟩
  · exact cumulative_time_rule.1 600
      [⟨500, 1200, 1⟩, ⟨450, 1200, 1⟩, ⟨450, 1200, 2⟩, ⟨400, 1200, 1⟩] 1
      ⟨450, 1200, 1⟩ ⟨450, 1200, 2⟩ (by simp) (by simp)
  · norm_num [cumOffset, rampFor]
  · norm_num [cumOffset, rampFor]
  · norm_num [cumOffset, rampFor]

/-- C8: a protocol step whose time window matches zero raw samples raises
no exception and contributes no entry; every step with at least one
matching sample does contribute; the produced count never exceeds the step
count and is strictly smaller as soon as one step is empty. -/
theorem empty_window_dropped (p : Processor) (t0 : ℚ) (ts ints : List ℚ) :
    ∃ res, detect_temperature_steps p (t0 :: ts) ints = some res ∧
      res.length ≤ p.steps.length ∧
      (∀ (k : ℕ) (s : Step), p.steps[k]? = some s →
        stepEntry p.analysis_time (t0 :: ts) ints t0 s
          (cumOffset p.ramp_time p.steps k) = none →
        ∀ d : StepData, (k, d) ∉ res) ∧
      (∀ (k : ℕ) (s : Step) (d : StepData), p.steps[k]? = some s →
        stepEntry p.analysis_time (t0 :: ts) ints t0 s
          (cumOffset p.ramp_time p.steps k) = some d →
        (k, d) ∈ res) ∧
      ((∃ (k : ℕ) (s : Step), p.steps[k]? = some s ∧
        stepEntry p.analysis_time (t0 :: ts) ints t0 s
          (cumOffset p.ramp_time p.steps k) = none) →
        res.length < p.steps.length) := by
  refine ⟨detectAux p.analysis_time p.ramp_time (t0 :: ts) ints t0 p.steps 0 0,
    rfl, ?_, ?_, ?_, ?_⟩
  · simpa using detectAux_length_le p.analysis_time p.ramp_time (t0 :: ts) ints t0 p.steps 0 0
  · intro k s hs hnone d hd
    obtain ⟨s2, hs2, hent2⟩ := (detect_mem_char p t0 ts ints _ rfl k d).mp hd
    rw [hs] at hs2
    injection hs2 with hs2
    rw [← hs2, hnone] at hent2
    exact Option.noConfusion hent2
  · intro k s d hs hent
    exact (detect_mem_char p t0 ts ints _ rfl k d).mpr ⟨s, hs, hent⟩
  · rintro ⟨k, s, hs, hnone⟩
    refine detectAux_length_lt p.analysis_time p.ramp_time (t0 :: ts) ints t0 p.steps 0 0
      ⟨k, s, hs, ?_⟩
    simpa using hnone

/-- Witness for C8: a two-step protocol on a recording that ends before
the window of the second step: segmentation returns a result (no
exception) containing only the first step, so one entry for two steps. -/
theorem empty_window_dropped_witness :
    (([⟨500, 1200, 1⟩, ⟨400, 1200, 1⟩] : List Step)[1]? = some ⟨400, 1200, 1⟩) ∧
    (stepEntry 600 [0, 600, 1200] [1, 2, 3] 0 ⟨400, 1200, 1⟩
      (cumOffset 600 [⟨500, 1200, 1⟩, ⟨400, 1200, 1⟩] 1) = none) ∧
    ∃ res,
      detect_temperature_steps ⟨-1000, 0, false, [⟨500, 1200, 1⟩, ⟨400, 1200, 1⟩], 600, 600⟩
        [0, 600, 1200] [1, 2, 3] = some res ∧
      res.length <
        (⟨-1000, 0, false, [⟨500, 1200, 1⟩, ⟨400, 1200, 1⟩], 600, 600⟩ :
          Processor).steps.length := by
  have hnone : stepEntry 600 [0, 600, 1200] [1, 2, 3] 0 ⟨400, 1200, 1⟩
      (cumOffset 600 [⟨500, 1200, 1⟩, ⟨400, 1200, 1⟩] 1) = none := by
    norm_num [stepEntry, pyMin, cumOffset, rampFor, List.filter]
  obtain ⟨res, h1, _, _, _, h5⟩ :=
    empty_window_dropped ⟨-1000, 0, false, [⟨500, 1200, 1⟩, ⟨400, 1200, 1⟩], 600, 600⟩
      0 [600, 1200] [1, 2, 3]
  exact ⟨by simp, hnone, res, h1, h5 ⟨1, ⟨400, 1200, 1⟩, by simp, hnone⟩⟩

/-- Counterexample to C7 as stated: `process_file` with auto-intercept on
persistently overwrites the configured intercept of the processor (101
becomes 100 on this input), so after the call the configured intercept is
not its value from before the call. -/
theorem process_file_mutates_intercept :
    (process_file ⟨-1000, 101, true, [⟨500, 1200, 1⟩], 600, 600⟩
        [0, 600, 1200] [1/10, 1/10, 1/10]).map
      (fun r => r.1.conversion_intercept) = some 100 ∧ (100 : ℚ) ≠ 101 := by
  constructor
  · norm_num [process_file, detect_temperature_steps, detectAux, stepEntry, pyMin,
      rampFor, effectiveIntercept, pyMax, groupConversions, intensity_to_conversion,
      List.filter]
  · norm_num

/-- C7 amended: `process_file_semi_auto` leaves the processor unchanged
(its per-reactor intercept is a local variable), while `process_file`
stores `effectiveIntercept` into the processor: the configured intercept
survives the call only when auto-intercept is off (or the recomputed value
coincides); with auto-intercept off both pipelines leave the processor
unchanged. -/
theorem intercept_scoping (p : Processor) (times ints : List ℚ) :
    (∀ r p2 T C, process_file_semi_auto p times ints r = some (p2, T, C) → p2 = p) ∧
    (∀ p2 T C td, process_file p times ints = some (p2, T, C, td) →
      p2.conversion_intercept =
        effectiveIntercept p.conversion_slope p.conversion_intercept p.auto_intercept
          (td.map (fun e => e.2.avg_intensity)) ∧
      (p.auto_intercept = false → p2 = p)) := by
  cases hD : detect_temperature_steps p times ints with
  | none =>
    constructor
    · intro r p2 T C h
      unfold process_file_semi_auto at h
      rw [hD] at h
      simp at h
    · intro p2 T C td h
      unfold process_file at h
      rw [hD] at h
      simp at h
  | some td0 =>
    constructor
    · intro r p2 T C h
      unfold process_file_semi_auto at h
      rw [hD] at h
      simp only [Option.some.injEq, Prod.mk.injEq] at h
      exact h.1.symm
    · intro p2 T C td h
      unfold process_file at h
      rw [hD] at h
      simp only [Option.some.injEq, Prod.mk.injEq] at h
      obtain ⟨hp2, _, _, htd⟩ := h
      subst htd
      constructor
      · rw [← hp2]
      · intro hAuto
        rw [← hp2]
        have hi : effectiveIntercept p.conversion_slope p.conversion_intercept
            p.auto_intercept (List.map (fun e => e.2.avg_intensity) td0) =
            p.conversion_intercept := by
          unfold effectiveIntercept
          rw [hAuto]
          simp
        rw [hi]

/-- Witness for C7 amended: a concrete semi-auto call returns the
processor unchanged. -/
theorem intercept_scoping_witness :
    (process_file_semi_auto ⟨-1000, 101, true, [⟨500, 1200, 1⟩], 600, 600⟩
        [0, 600, 1200] [1/10, 1/10, 1/10] 1 =
      some (⟨-1000, 101, true, [⟨500, 1200, 1⟩], 600, 600⟩, [500], [0])) ∧
    (⟨-1000, 101, true, [⟨500, 1200, 1⟩], 600, 600⟩ : Processor) =
      ⟨-1000, 101, true, [⟨500, 1200, 1⟩], 600, 600⟩ := by
  have h : process_file_semi_auto ⟨-1000, 101, true, [⟨500, 1200, 1⟩], 600, 600⟩
      [0, 600, 1200] [1/10, 1/10, 1/10] 1 =
      some (⟨-1000, 101, true, [⟨500, 1200, 1⟩], 600, 600⟩, [500], [0]) := by
    norm_num [process_file_semi_auto, detect_temperature_steps, detectAux, stepEntry,
      pyMin, rampFor, effectiveIntercept, pyMax, groupConversions,
      intensity_to_conversion, reactorGroup, List.filter]
  exact ⟨h, (intercept_scoping _ _ _).1 1 _ _ _ h⟩

end ActivityAnalyzer
